import Mathlib

/-!
Shallow embedding of the intcode virtual machine from
`src/intcode_vm/src/lib.rs`, together with proofs of the specified
properties of its memory model, instruction decoder, executor and run
loops.

Modelling conventions:
* `ProgramElement` (Rust `isize`) is modelled as unbounded `Int`; the
  source leaves arithmetic-overflow behaviour undefined.  Every `as usize`
  cast in the source is modelled exactly as the two's-complement
  reinterpretation `toUsize`, i.e. reduction modulo `2 ^ 64`.
* Rust `%` and `/` on signed integers are truncated (`Int.tmod`,
  `Int.tdiv`).
* `VecDeque` queues are lists: `pop_front` is head/tail, `push_back` is
  append on the right.
* `HashMap<usize, [T; PAGE_SIZE]>` is an association list from page index
  to the page, a page being a function from offset to value; `setPage`
  models insert-or-update.
* Rust panics (unrecognized opcode, unrecognized parameter mode, write
  through an Immediate parameter, `unwrap` of a missing parameter, and
  `expect` in `run_to_completion`) are the `fatal` outcomes below;
  `Err(ExecuteError::NoInput)` is the separate recoverable `noInput`
  outcome.
* The Rust run loops `run_to_next_input` / `run_to_completion` are
  `while` loops; they are modelled with an explicit fuel argument, fuel
  exhaustion being a distinguished outcome.
-/

abbrev ProgramElement := Int

def PAGE_SIZE : Nat := 256

/-- One page of `PagedMemory`: Rust `[T; PAGE_SIZE]`, as offset ↦ value. -/
abbrev Page := Nat → ProgramElement

/-- Embedding of `PagedMemory<ProgramElement>`: maps page index (= addr / PAGE_SIZE)
to the storage for that page. -/
structure PagedMemory where
  pages : List (Nat × Page)

def PagedMemory.new : PagedMemory := ⟨[]⟩

/-- Embedding of `PagedMemory::read_addr`. -/
def PagedMemory.read_addr (m : PagedMemory) (addr : Nat) : ProgramElement :=
  let index := addr / PAGE_SIZE
  let offset := addr % PAGE_SIZE
  match m.pages.lookup index with
  | some page => page offset
  | none => 0

/-- Insert-or-update of one page binding, modelling `HashMap::entry().or_insert` +
in-place mutation. -/
def setPage : List (Nat × Page) → Nat → Page → List (Nat × Page)
  | [], i, p => [(i, p)]
  | (j, q) :: rest, i, p => if j = i then (i, p) :: rest else (j, q) :: setPage rest i p

/-- Embedding of `PagedMemory::write_addr`. -/
def PagedMemory.write_addr (m : PagedMemory) (addr : Nat) (value : ProgramElement) :
    PagedMemory :=
  let index := addr / PAGE_SIZE
  let offset := addr % PAGE_SIZE
  let page : Page :=
    match m.pages.lookup index with
    | some p => p
    | none => fun _ => 0
  ⟨setPage m.pages index (fun o => if o = offset then value else page o)⟩

/-- Embedding of `impl From<I> for PagedMemory`: write each element at its index. -/
def PagedMemory.fromList (l : List ProgramElement) : PagedMemory :=
  l.enum.foldl (fun m p => m.write_addr p.1 p.2) PagedMemory.new

/-- Apply a sequence of writes left to right (used to phrase "never written"). -/
def PagedMemory.writeList (m : PagedMemory) : List (Nat × ProgramElement) → PagedMemory
  | [] => m
  | (a, v) :: ws => (m.write_addr a v).writeList ws

/-- Embedding of `ProgramState`. -/
structure ProgramState where
  mem : PagedMemory
  inputs : List ProgramElement
  outputs : List ProgramElement
  program_counter : Nat
  relative_base : ProgramElement
  terminated : Bool

/-- Embedding of `ProgramState::new`. -/
def ProgramState.new (mem : List ProgramElement) (inputs : List ProgramElement) :
    ProgramState :=
  { mem := PagedMemory.fromList mem
    inputs := inputs
    outputs := []
    program_counter := 0
    relative_base := 0
    terminated := false }

/-- The default pc advance `program_counter += opcode.length()`. -/
def ProgramState.advance (s : ProgramState) (n : Nat) : ProgramState :=
  { s with program_counter := s.program_counter + n }

/-- Push additional values onto the back of the input queue. -/
def ProgramState.addInputs (s : ProgramState) (extra : List ProgramElement) :
    ProgramState :=
  { s with inputs := s.inputs ++ extra }

/-- Rust `x as usize` on an `isize`: two's-complement reinterpretation mod 2^64. -/
def toUsize (x : Int) : Nat := (x.emod (2 ^ 64)).toNat

inductive ParameterMode where
  | Position
  | Immediate
  | Relative
deriving DecidableEq

/-- Embedding of `impl From<u8> for ParameterMode`; `none` models the panic on an
unrecognized mode code. -/
def ParameterMode.fromCode : Nat → Option ParameterMode
  | 0 => some ParameterMode.Position
  | 1 => some ParameterMode.Immediate
  | 2 => some ParameterMode.Relative
  | _ => none

structure Parameter where
  mode : ParameterMode
  contents : ProgramElement
deriving DecidableEq

inductive OpCode where
  | Add
  | Multiply
  | ReadInput
  | WriteOutput
  | JumpIfTrue
  | JumpIfFalse
  | LessThan
  | Equals
  | AdjustRelativeBase
  | Terminate
deriving DecidableEq

/-- Embedding of `OpCode::from_element`; `none` models the panic on an
unrecognized opcode.  Rust `%` on signed integers is `Int.tmod`. -/
def OpCode.from_element (element : ProgramElement) : Option OpCode :=
  match element.tmod 100 with
  | 1 => some OpCode.Add
  | 2 => some OpCode.Multiply
  | 3 => some OpCode.ReadInput
  | 4 => some OpCode.WriteOutput
  | 5 => some OpCode.JumpIfTrue
  | 6 => some OpCode.JumpIfFalse
  | 7 => some OpCode.LessThan
  | 8 => some OpCode.Equals
  | 9 => some OpCode.AdjustRelativeBase
  | 99 => some OpCode.Terminate
  | _ => none

/-- Embedding of `OpCode::length`. -/
def OpCode.length : OpCode → Nat
  | OpCode.Add => 4
  | OpCode.Multiply => 4
  | OpCode.ReadInput => 2
  | OpCode.WriteOutput => 2
  | OpCode.JumpIfTrue => 3
  | OpCode.JumpIfFalse => 3
  | OpCode.LessThan => 4
  | OpCode.Equals => 4
  | OpCode.AdjustRelativeBase => 2
  | OpCode.Terminate => 1

/-- Embedding of `Parameter::read`. -/
def Parameter.read (p : Parameter) (s : ProgramState) : ProgramElement :=
  match p.mode with
  | ParameterMode.Position => s.mem.read_addr (toUsize p.contents)
  | ParameterMode.Immediate => p.contents
  | ParameterMode.Relative => s.mem.read_addr (toUsize (s.relative_base + p.contents))

/-- Embedding of `Parameter::write`; `none` models the panic on writing through an
Immediate-mode parameter. -/
def Parameter.write (p : Parameter) (s : ProgramState) (value : ProgramElement) :
    Option ProgramState :=
  match p.mode with
  | ParameterMode.Position =>
      some { s with mem := s.mem.write_addr (toUsize p.contents) value }
  | ParameterMode.Relative =>
      some { s with mem := s.mem.write_addr (toUsize (s.relative_base + p.contents)) value }
  | ParameterMode.Immediate => none

structure Instruction where
  opcode : OpCode
  parameters : List Parameter
deriving DecidableEq

/-- The decode loop `for i in 1..opcode.length()` of `Instruction::fetch_and_decode`:
`i` is the loop counter, the second argument the number of parameters still to
decode, `modes` the remaining mode digits.  Rust `%`/`/` are `tmod`/`tdiv`, and
`as u8` is reduction modulo 256. -/
def decodeParamsAux (mem : PagedMemory) (pc : Nat) : Nat → Nat → Int → Option (List Parameter)
  | _, 0, _ => some []
  | i, Nat.succ n, modes =>
    match ParameterMode.fromCode ((modes.tmod 10).emod 256).toNat with
    | none => none
    | some mode =>
      match decodeParamsAux mem pc (i + 1) n (modes.tdiv 10) with
      | none => none
      | some rest => some ({ mode := mode, contents := mem.read_addr (pc + i) } :: rest)

/-- Embedding of `Instruction::fetch_and_decode`; `none` models the decoding panics. -/
def Instruction.fetch_and_decode (s : ProgramState) : Option Instruction :=
  let raw_instr := s.mem.read_addr s.program_counter
  match OpCode.from_element raw_instr with
  | none => none
  | some opcode =>
    match decodeParamsAux s.mem s.program_counter 1 (opcode.length - 1) (raw_instr.tdiv 100) with
    | none => none
    | some params => some { opcode := opcode, parameters := params }

/-- Embedding of `Instruction::read_param`; `none` models the `unwrap` panic. -/
def Instruction.read_param (i : Instruction) (idx : Nat) (s : ProgramState) :
    Option ProgramElement :=
  (i.parameters.get? idx).map (fun p => p.read s)

/-- Embedding of `Instruction::write_param`; `none` models the `unwrap` panic and the
Immediate-write panic. -/
def Instruction.write_param (i : Instruction) (idx : Nat) (s : ProgramState)
    (value : ProgramElement) : Option ProgramState :=
  match i.parameters.get? idx with
  | none => none
  | some p => p.write s value

/-- Outcome of executing one instruction: `ok` is `Ok(())` with the mutated state,
`noInput` is `Err(ExecuteError::NoInput)` with the state at the early return
(which the code leaves untouched), `fatal` is a panic. -/
inductive ExecResult where
  | ok (s : ProgramState)
  | noInput (s : ProgramState)
  | fatal

/-- Embedding of `Instruction::execute`. -/
def Instruction.execute (i : Instruction) (s : ProgramState) : ExecResult :=
  match i.opcode with
  | OpCode.Add =>
    match i.read_param 0 s, i.read_param 1 s with
    | some a, some b =>
      match i.write_param 2 s (a + b) with
      | some s' => ExecResult.ok (s'.advance i.opcode.length)
      | none => ExecResult.fatal
    | _, _ => ExecResult.fatal
  | OpCode.Multiply =>
    match i.read_param 0 s, i.read_param 1 s with
    | some a, some b =>
      match i.write_param 2 s (a * b) with
      | some s' => ExecResult.ok (s'.advance i.opcode.length)
      | none => ExecResult.fatal
    | _, _ => ExecResult.fatal
  | OpCode.ReadInput =>
    match s.inputs with
    | [] => ExecResult.noInput s
    | v :: rest =>
      match i.write_param 0 { s with inputs := rest } v with
      | some s' => ExecResult.ok (s'.advance i.opcode.length)
      | none => ExecResult.fatal
  | OpCode.WriteOutput =>
    match i.read_param 0 s with
    | some a => ExecResult.ok (({ s with outputs := s.outputs ++ [a] }).advance i.opcode.length)
    | none => ExecResult.fatal
  | OpCode.JumpIfTrue =>
    match i.read_param 0 s with
    | some test =>
      if test ≠ 0 then
        match i.read_param 1 s with
        | some target => ExecResult.ok { s with program_counter := toUsize target }
        | none => ExecResult.fatal
      else ExecResult.ok (s.advance i.opcode.length)
    | none => ExecResult.fatal
  | OpCode.JumpIfFalse =>
    match i.read_param 0 s with
    | some test =>
      if test = 0 then
        match i.read_param 1 s with
        | some target => ExecResult.ok { s with program_counter := toUsize target }
        | none => ExecResult.fatal
      else ExecResult.ok (s.advance i.opcode.length)
    | none => ExecResult.fatal
  | OpCode.LessThan =>
    match i.read_param 0 s, i.read_param 1 s with
    | some a, some b =>
      match i.write_param 2 s (if a < b then 1 else 0) with
      | some s' => ExecResult.ok (s'.advance i.opcode.length)
      | none => ExecResult.fatal
    | _, _ => ExecResult.fatal
  | OpCode.Equals =>
    match i.read_param 0 s, i.read_param 1 s with
    | some a, some b =>
      match i.write_param 2 s (if a = b then 1 else 0) with
      | some s' => ExecResult.ok (s'.advance i.opcode.length)
      | none => ExecResult.fatal
    | _, _ => ExecResult.fatal
  | OpCode.AdjustRelativeBase =>
    match i.read_param 0 s with
    | some a =>
      ExecResult.ok (({ s with relative_base := s.relative_base + a }).advance i.opcode.length)
    | none => ExecResult.fatal
  | OpCode.Terminate =>
    ExecResult.ok (({ s with terminated := true }).advance i.opcode.length)

/-- Embedding of `ProgramState::progress_state`. -/
def ProgramState.progress_state (s : ProgramState) : ExecResult :=
  match Instruction.fetch_and_decode s with
  | none => ExecResult.fatal
  | some instr => instr.execute s

/-- Embedding of `ProgramState::run_to_next_input` with explicit fuel; `none` is
fuel exhaustion or a panic. -/
def ProgramState.run_to_next_input : Nat → ProgramState → Option ProgramState
  | 0, s => if s.terminated then some s else none
  | fuel + 1, s =>
    if s.terminated then some s
    else
      match s.progress_state with
      | ExecResult.ok s' => run_to_next_input fuel s'
      | ExecResult.noInput s' => some s'
      | ExecResult.fatal => none

/-- Outcome of `run_to_completion`: normal return, the `expect`/decode panic, or
fuel exhaustion. -/
inductive RunResult where
  | done (s : ProgramState)
  | fatal
  | outOfFuel

/-- Embedding of `ProgramState::run_to_completion` with explicit fuel; the `expect`
on `Err(NoInput)` and all panics are `fatal`. -/
def ProgramState.run_to_completion : Nat → ProgramState → RunResult
  | 0, s => if s.terminated then RunResult.done s else RunResult.outOfFuel
  | fuel + 1, s =>
    if s.terminated then RunResult.done s
    else
      match s.progress_state with
      | ExecResult.ok s' => run_to_completion fuel s'
      | ExecResult.noInput _ => RunResult.fatal
      | ExecResult.fatal => RunResult.fatal

/-- The caller-side protocol of splitting inputs over several `run_to_next_input`
calls: before each call, push the next portion of inputs onto the queue. -/
def runSplit : List (List ProgramElement) → Nat → ProgramState → Option ProgramState
  | [], _, s => some s
  | p :: ps, fuel, s =>
    match ProgramState.run_to_next_input fuel (s.addInputs p) with
    | some s' => runSplit ps fuel s'
    | none => none

/-- The `j`-th least-significant decimal digit of the instruction word `w` after
removing the two opcode digits, exactly as the decode loop computes it:
iterated truncated division by 10, truncated remainder, then the `as u8` cast. -/
def modeDigit (w : Int) (j : Nat) : Nat :=
  ((((fun m => Int.tdiv m 10)^[j] (w.tdiv 100)).tmod 10).emod 256).toNat
/-! ## Memory lemmas -/

theorem lookup_setPage_self (i : Nat) (p : Page) :
    ∀ l : List (Nat × Page), (setPage l i p).lookup i = some p := by
  intro l
  induction l with
  | nil => simp [setPage, List.lookup]
  | cons hd tl ih =>
    obtain ⟨j, q⟩ := hd
    by_cases hj : j = i
    · simp [setPage, hj, List.lookup]
    · have hb : (i == j) = false := by simpa using Ne.symm hj
      simp [setPage, hj, List.lookup, hb, ih]

theorem lookup_setPage_ne (i j : Nat) (p : Page) (h : j ≠ i) :
    ∀ l : List (Nat × Page), (setPage l i p).lookup j = l.lookup j := by
  intro l
  have hb : (j == i) = false := by simpa using h
  induction l with
  | nil => simp [setPage, List.lookup, hb]
  | cons hd tl ih =>
    obtain ⟨k, q⟩ := hd
    by_cases hk : k = i
    · subst hk
      simp [setPage, List.lookup, hb]
    · simp [setPage, hk, List.lookup, ih]

theorem PagedMemory.read_addr_new (a : Nat) : PagedMemory.new.read_addr a = 0 := rfl

theorem PagedMemory.read_addr_write_addr_self (m : PagedMemory) (a : Nat)
    (v : ProgramElement) : (m.write_addr a v).read_addr a = v := by
  simp [PagedMemory.read_addr, PagedMemory.write_addr, lookup_setPage_self]

theorem PagedMemory.read_addr_write_addr_ne (m : PagedMemory) (a : Nat)
    (v : ProgramElement) (a' : Nat) (h : a' ≠ a) :
    (m.write_addr a v).read_addr a' = m.read_addr a' := by
  by_cases hidx : a' / PAGE_SIZE = a / PAGE_SIZE
  · have hoff : a' % PAGE_SIZE ≠ a % PAGE_SIZE := by
      intro hoff
      apply h
      calc a' = PAGE_SIZE * (a' / PAGE_SIZE) + a' % PAGE_SIZE :=
            (Nat.div_add_mod a' PAGE_SIZE).symm
        _ = PAGE_SIZE * (a / PAGE_SIZE) + a % PAGE_SIZE := by rw [hidx, hoff]
        _ = a := Nat.div_add_mod a PAGE_SIZE
    simp only [PagedMemory.read_addr, PagedMemory.write_addr, hidx, lookup_setPage_self]
    cases hl : m.pages.lookup (a / PAGE_SIZE) <;> simp [hl, hoff]
  · simp only [PagedMemory.read_addr, PagedMemory.write_addr,
      lookup_setPage_ne _ _ _ hidx]

theorem PagedMemory.read_addr_writeList_of_notMem (a : Nat)
    (ws : List (Nat × ProgramElement)) (h : a ∉ ws.map Prod.fst) :
    ∀ m : PagedMemory, (m.writeList ws).read_addr a = m.read_addr a := by
  induction ws with
  | nil => intro m; rfl
  | cons hd tl ih =>
    intro m
    obtain ⟨b, v⟩ := hd
    simp only [List.map_cons, List.mem_cons] at h
    push_neg at h
    rw [PagedMemory.writeList, ih h.2, PagedMemory.read_addr_write_addr_ne _ _ _ _ h.1]

/-! ## Parameter and instruction lemmas -/

theorem Parameter.read_setInputs (p : Parameter) (s : ProgramState)
    (l : List ProgramElement) : p.read { s with inputs := l } = p.read s := by
  obtain ⟨mode, c⟩ := p
  cases mode <;> rfl

theorem Parameter.write_setInputs (p : Parameter) (s : ProgramState)
    (l : List ProgramElement) (v : ProgramElement) :
    p.write { s with inputs := l } v =
      (p.write s v).map (fun t => { t with inputs := l }) := by
  obtain ⟨mode, c⟩ := p
  cases mode <;> rfl

theorem Parameter.write_relative_base (p : Parameter) (s : ProgramState)
    (v : ProgramElement) (s' : ProgramState) (h : p.write s v = some s') :
    s'.relative_base = s.relative_base ∧ s'.inputs = s.inputs ∧
      s'.outputs = s.outputs ∧ s'.program_counter = s.program_counter ∧
      s'.terminated = s.terminated := by
  obtain ⟨mode, c⟩ := p
  cases mode <;> simp [Parameter.write] at h <;> subst h <;> exact ⟨rfl, rfl, rfl, rfl, rfl⟩

theorem Instruction.read_param_setInputs (i : Instruction) (k : Nat) (s : ProgramState)
    (l : List ProgramElement) :
    i.read_param k { s with inputs := l } = i.read_param k s := by
  simp [Instruction.read_param, Parameter.read_setInputs]

theorem Instruction.write_param_setInputs (i : Instruction) (k : Nat) (s : ProgramState)
    (l : List ProgramElement) (v : ProgramElement) :
    i.write_param k { s with inputs := l } v =
      (i.write_param k s v).map (fun t => { t with inputs := l }) := by
  unfold Instruction.write_param
  cases h : i.parameters.get? k <;> simp [h, Parameter.write_setInputs]

theorem Instruction.execute_noInput (i : Instruction) (s t : ProgramState)
    (h : i.execute s = ExecResult.noInput t) :
    t = s ∧ s.inputs = [] ∧ i.opcode = OpCode.ReadInput := by
  obtain ⟨op, ps⟩ := i
  cases op <;> simp only [Instruction.execute] at h <;> repeat' split at h
  all_goals cases h
  all_goals exact ⟨rfl, by assumption, rfl⟩

/-- Map a function over the state carried by an execution outcome. -/
def mapExec (f : ProgramState → ProgramState) : ExecResult → ExecResult
  | ExecResult.ok s => ExecResult.ok (f s)
  | ExecResult.noInput s => ExecResult.noInput (f s)
  | ExecResult.fatal => ExecResult.fatal

theorem Instruction.write_param_fields (i : Instruction) (k : Nat) (s : ProgramState)
    (v : ProgramElement) (s' : ProgramState) (h : i.write_param k s v = some s') :
    s'.relative_base = s.relative_base ∧ s'.inputs = s.inputs ∧
      s'.outputs = s.outputs ∧ s'.program_counter = s.program_counter ∧
      s'.terminated = s.terminated := by
  unfold Instruction.write_param at h
  split at h
  · cases h
  · exact Parameter.write_relative_base _ _ _ _ h

theorem Instruction.execute_ok_fields (i : Instruction) (s s' : ProgramState)
    (h : i.execute s = ExecResult.ok s') :
    (i.opcode ≠ OpCode.AdjustRelativeBase → s'.relative_base = s.relative_base) ∧
      (s.terminated = true → s'.terminated = true) := by
  obtain ⟨op, ps⟩ := i
  cases op <;> simp only [Instruction.execute] at h <;> repeat' split at h
  all_goals cases h
  all_goals try exact ⟨fun _ => rfl, fun ht => ht⟩
  all_goals try exact ⟨fun hop => absurd rfl hop, fun ht => ht⟩
  all_goals try exact ⟨fun _ => rfl, fun _ => rfl⟩
  all_goals
    rename_i heq
    have hf := Instruction.write_param_fields _ _ _ _ _ heq
    exact ⟨fun _ => hf.1, fun ht => hf.2.2.2.2.trans ht⟩

theorem Instruction.execute_setInputs (i : Instruction) (s : ProgramState)
    (l : List ProgramElement) (hop : i.opcode ≠ OpCode.ReadInput) :
    i.execute { s with inputs := l } =
      mapExec (fun t => { t with inputs := l }) (i.execute s) := by
  obtain ⟨op, ps⟩ := i
  cases op
  case ReadInput => exact absurd rfl hop
  all_goals
    simp only [Instruction.execute, Instruction.read_param_setInputs,
      Instruction.write_param_setInputs]
  all_goals repeat' split
  all_goals simp_all [mapExec, ProgramState.advance, Instruction.write_param_setInputs]
  all_goals
    rename_i hrec hw
    subst hrec
    exact ⟨rfl, rfl, rfl, rfl, rfl, rfl⟩

/-! ## Progress-level lemmas -/

theorem ProgramState.fetch_addInputs (s : ProgramState) (e : List ProgramElement) :
    Instruction.fetch_and_decode (s.addInputs e) = Instruction.fetch_and_decode s := rfl

theorem ProgramState.progress_state_of_fetch (s : ProgramState) (i : Instruction)
    (hfd : Instruction.fetch_and_decode s = some i) : s.progress_state = i.execute s := by
  unfold ProgramState.progress_state
  rw [hfd]

theorem ProgramState.progress_state_of_fetch_none (s : ProgramState)
    (hfd : Instruction.fetch_and_decode s = none) : s.progress_state = ExecResult.fatal := by
  unfold ProgramState.progress_state
  rw [hfd]

theorem Instruction.execute_ok_inputs (i : Instruction) (s s' : ProgramState)
    (hop : i.opcode ≠ OpCode.ReadInput) (h : i.execute s = ExecResult.ok s') :
    s'.inputs = s.inputs := by
  have h2 := Instruction.execute_setInputs i s s.inputs hop
  rw [show ({ s with inputs := s.inputs } : ProgramState) = s from rfl, h] at h2
  simp only [mapExec] at h2
  injection h2 with h3
  have h4 := congrArg ProgramState.inputs h3
  exact h4

theorem ProgramState.progress_noInput_eq (s t : ProgramState)
    (h : s.progress_state = ExecResult.noInput t) : t = s ∧ s.inputs = [] := by
  cases hfd : Instruction.fetch_and_decode s with
  | none => rw [ProgramState.progress_state_of_fetch_none s hfd] at h; cases h
  | some i =>
    rw [ProgramState.progress_state_of_fetch s i hfd] at h
    have hni := Instruction.execute_noInput i s t h
    exact ⟨hni.1, hni.2.1⟩

theorem ProgramState.progress_addInputs_ok (s s' : ProgramState) (e : List ProgramElement)
    (h : s.progress_state = ExecResult.ok s') :
    (s.addInputs e).progress_state = ExecResult.ok (s'.addInputs e) := by
  cases hfd : Instruction.fetch_and_decode s with
  | none => rw [ProgramState.progress_state_of_fetch_none s hfd] at h; cases h
  | some i =>
    rw [ProgramState.progress_state_of_fetch s i hfd] at h
    rw [ProgramState.progress_state_of_fetch (s.addInputs e) i
      (by rw [ProgramState.fetch_addInputs, hfd])]
    obtain ⟨op, ps⟩ := i
    by_cases hop : op = OpCode.ReadInput
    · subst hop
      rcases hin : s.inputs with _ | ⟨v, rest⟩
      · simp only [Instruction.execute, hin] at h
        cases h
      · simp only [Instruction.execute, hin] at h
        cases hw : Instruction.write_param { opcode := OpCode.ReadInput, parameters := ps } 0
            { s with inputs := rest } v with
        | none => rw [hw] at h; cases h
        | some x =>
          rw [hw] at h
          cases h
          rw [Instruction.write_param_setInputs] at hw
          cases hw0 : Instruction.write_param { opcode := OpCode.ReadInput, parameters := ps }
              0 s v with
          | none => rw [hw0] at hw; cases hw
          | some y =>
            rw [hw0] at hw
            simp only [Option.map_some'] at hw
            injection hw with hxy
            subst hxy
            simp only [Instruction.execute, ProgramState.addInputs, hin, List.cons_append]
            rw [Instruction.write_param_setInputs, hw0]
            simp [ProgramState.advance]
    · have hset := Instruction.execute_setInputs ⟨op, ps⟩ s (s.inputs ++ e) hop
      have hinp := Instruction.execute_ok_inputs ⟨op, ps⟩ s s' hop h
      rw [show ProgramState.addInputs s e = { s with inputs := s.inputs ++ e } from rfl,
        hset, h]
      simp only [mapExec, ProgramState.addInputs, hinp]

theorem ProgramState.progress_addInputs_fatal (s : ProgramState) (e : List ProgramElement)
    (h : s.progress_state = ExecResult.fatal) :
    (s.addInputs e).progress_state = ExecResult.fatal := by
  cases hfd : Instruction.fetch_and_decode s with
  | none =>
    exact ProgramState.progress_state_of_fetch_none _
      (by rw [ProgramState.fetch_addInputs, hfd])
  | some i =>
    rw [ProgramState.progress_state_of_fetch s i hfd] at h
    rw [ProgramState.progress_state_of_fetch (s.addInputs e) i
      (by rw [ProgramState.fetch_addInputs, hfd])]
    obtain ⟨op, ps⟩ := i
    by_cases hop : op = OpCode.ReadInput
    · subst hop
      rcases hin : s.inputs with _ | ⟨v, rest⟩
      · simp only [Instruction.execute, hin] at h
        cases h
      · simp only [Instruction.execute, hin] at h
        cases hw : Instruction.write_param { opcode := OpCode.ReadInput, parameters := ps } 0
            { s with inputs := rest } v with
        | some x => rw [hw] at h; cases h
        | none =>
          rw [Instruction.write_param_setInputs] at hw
          cases hw0 : Instruction.write_param { opcode := OpCode.ReadInput, parameters := ps }
              0 s v with
          | some y => rw [hw0] at hw; simp at hw
          | none =>
            simp only [Instruction.execute, ProgramState.addInputs, hin, List.cons_append]
            rw [Instruction.write_param_setInputs, hw0]
            rfl
    · have hset := Instruction.execute_setInputs ⟨op, ps⟩ s (s.inputs ++ e) hop
      rw [show ProgramState.addInputs s e = { s with inputs := s.inputs ++ e } from rfl,
        hset, h]
      rfl

/-! ## Run-loop lemmas -/

theorem ProgramState.addInputs_terminated (s : ProgramState) (e : List ProgramElement) :
    (s.addInputs e).terminated = s.terminated := rfl

theorem ProgramState.addInputs_outputs (s : ProgramState) (e : List ProgramElement) :
    (s.addInputs e).outputs = s.outputs := rfl

theorem ProgramState.rtni_of_terminated (f : Nat) (s : ProgramState)
    (h : s.terminated = true) : ProgramState.run_to_next_input f s = some s := by
  cases f <;> simp [ProgramState.run_to_next_input, h]

theorem ProgramState.rtni_mono (f k : Nat) : ∀ (s t : ProgramState),
    ProgramState.run_to_next_input f s = some t →
    ProgramState.run_to_next_input (f + k) s = some t := by
  induction f with
  | zero =>
    intro s t h
    simp only [ProgramState.run_to_next_input] at h
    split at h
    · cases h
      exact ProgramState.rtni_of_terminated _ _ (by assumption)
    · cases h
  | succ f ih =>
    intro s t h
    rw [Nat.succ_add]
    simp only [ProgramState.run_to_next_input] at h ⊢
    split at h
    case isTrue ht => cases h; simp [ht]
    case isFalse ht =>
      rw [if_neg ht]
      cases hp : s.progress_state with
      | ok s' =>
        rw [hp] at h
        exact ih s' t h
      | noInput s' =>
        rw [hp] at h
        exact h
      | fatal => rw [hp] at h; cases h

theorem ProgramState.rtni_addInputs (f : Nat) : ∀ (s t : ProgramState)
    (e : List ProgramElement),
    ProgramState.run_to_next_input f s = some t → t.terminated = true →
    ProgramState.run_to_next_input f (s.addInputs e) = some (t.addInputs e) := by
  induction f with
  | zero =>
    intro s t e h ht
    simp only [ProgramState.run_to_next_input] at h ⊢
    split at h
    · cases h
      simp [ProgramState.addInputs_terminated, by assumption]
    · cases h
  | succ f ih =>
    intro s t e h ht
    simp only [ProgramState.run_to_next_input] at h
    split at h
    case isTrue hts =>
      cases h
      simp [ProgramState.run_to_next_input, ProgramState.addInputs_terminated, hts]
    case isFalse hts =>
      simp only [ProgramState.run_to_next_input]
      rw [if_neg (show ¬((s.addInputs e).terminated = true) from by
        rw [ProgramState.addInputs_terminated]; exact hts)]
      cases hp : s.progress_state with
      | ok s' =>
        rw [hp] at h
        rw [ProgramState.progress_addInputs_ok s s' e hp]
        exact ih s' t e h ht
      | noInput s' =>
        rw [hp] at h
        cases h
        obtain ⟨hes, _⟩ := ProgramState.progress_noInput_eq s t hp
        exact absurd (hes ▸ ht) hts
      | fatal => rw [hp] at h; cases h

theorem ProgramState.rtni_resume (f : Nat) : ∀ (g : Nat) (s s1 t : ProgramState)
    (e : List ProgramElement),
    ProgramState.run_to_next_input f s = some s1 → s1.terminated = false →
    ProgramState.run_to_next_input g (s1.addInputs e) = some t →
    ProgramState.run_to_next_input (f + g) (s.addInputs e) = some t := by
  induction f with
  | zero =>
    intro g s s1 t e h h1 h2
    simp only [ProgramState.run_to_next_input] at h
    split at h
    · cases h
      simp_all
    · cases h
  | succ f ih =>
    intro g s s1 t e h h1 h2
    simp only [ProgramState.run_to_next_input] at h
    split at h
    case isTrue hts => cases h; rw [hts] at h1; cases h1
    case isFalse hts =>
      cases hp : s.progress_state with
      | ok s' =>
        rw [hp] at h
        rw [show f + 1 + g = (f + g) + 1 from by omega]
        simp only [ProgramState.run_to_next_input]
        rw [if_neg (show ¬((s.addInputs e).terminated = true) from by
          rw [ProgramState.addInputs_terminated]; exact hts)]
        rw [ProgramState.progress_addInputs_ok s s' e hp]
        exact ih g s' s1 t e h h1 h2
      | noInput s' =>
        rw [hp] at h
        cases h
        obtain ⟨hes, _⟩ := ProgramState.progress_noInput_eq s s1 hp
        subst hes
        rw [show f + 1 + g = g + (f + 1) from by omega]
        exact ProgramState.rtni_mono g (f + 1) _ t h2
      | fatal => rw [hp] at h; cases h

theorem ProgramState.rtc_of_rtni_terminated (f : Nat) : ∀ (s t : ProgramState),
    ProgramState.run_to_next_input f s = some t → t.terminated = true →
    ProgramState.run_to_completion f s = RunResult.done t := by
  induction f with
  | zero =>
    intro s t h ht
    simp only [ProgramState.run_to_next_input] at h
    split at h
    · cases h
      simp [ProgramState.run_to_completion, by assumption]
    · cases h
  | succ f ih =>
    intro s t h ht
    simp only [ProgramState.run_to_next_input] at h
    split at h
    case isTrue hts => cases h; simp [ProgramState.run_to_completion, hts]
    case isFalse hts =>
      simp only [ProgramState.run_to_completion]
      rw [if_neg hts]
      cases hp : s.progress_state with
      | ok s' =>
        rw [hp] at h
        exact ih s' t h ht
      | noInput s' =>
        rw [hp] at h
        cases h
        obtain ⟨hes, _⟩ := ProgramState.progress_noInput_eq s t hp
        exact absurd (hes ▸ ht) hts
      | fatal => rw [hp] at h; cases h

theorem ProgramState.rtc_fatal_of_pause (f : Nat) : ∀ (s t : ProgramState),
    ProgramState.run_to_next_input f s = some t → t.terminated = false →
    ProgramState.run_to_completion f s = RunResult.fatal := by
  induction f with
  | zero =>
    intro s t h h1
    simp only [ProgramState.run_to_next_input] at h
    split at h
    · cases h
      simp_all
    · cases h
  | succ f ih =>
    intro s t h h1
    simp only [ProgramState.run_to_next_input] at h
    split at h
    case isTrue hts => cases h; rw [hts] at h1; cases h1
    case isFalse hts =>
      simp only [ProgramState.run_to_completion]
      rw [if_neg hts]
      cases hp : s.progress_state with
      | ok s' =>
        rw [hp] at h
        exact ih s' t h h1
      | noInput s' => rfl
      | fatal => rw [hp] at h

theorem ProgramState.runSplit_rtni : ∀ (ps : List (List ProgramElement)) (fuel : Nat)
    (s sB : ProgramState),
    runSplit ps fuel s = some sB → sB.terminated = true →
    ∃ F, ProgramState.run_to_next_input F (s.addInputs ps.flatten) = some sB := by
  intro ps
  induction ps with
  | nil =>
    intro fuel s sB h ht
    simp only [runSplit] at h
    cases h
    refine ⟨1, ?_⟩
    rw [show s.addInputs ([] : List (List ProgramElement)).flatten = s from by
      simp [ProgramState.addInputs]]
    exact ProgramState.rtni_of_terminated 1 s ht
  | cons p rest ih =>
    intro fuel s sB h ht
    simp only [runSplit] at h
    cases h1 : ProgramState.run_to_next_input fuel (s.addInputs p) with
    | none => rw [h1] at h; cases h
    | some s1 =>
      rw [h1] at h
      obtain ⟨F1, hF1⟩ := ih fuel s1 sB h ht
      rw [show (p :: rest).flatten = p ++ rest.flatten from by simp]
      rw [show s.addInputs (p ++ rest.flatten) = (s.addInputs p).addInputs rest.flatten from by
        simp [ProgramState.addInputs, List.append_assoc]]
      cases hterm1 : s1.terminated with
      | false =>
        exact ⟨fuel + F1,
          ProgramState.rtni_resume fuel F1 (s.addInputs p) s1 sB rest.flatten h1 hterm1 hF1⟩
      | true =>
        have h2 := ProgramState.rtni_addInputs fuel (s.addInputs p) s1 rest.flatten h1 hterm1
        have h3 := ProgramState.rtni_of_terminated F1 (s1.addInputs rest.flatten) (by
          rw [ProgramState.addInputs_terminated]; exact hterm1)
        rw [hF1] at h3
        injection h3 with h4
        rw [← h4] at h2
        exact ⟨fuel, h2⟩

/-! ## Decoder characterization -/

theorem decodeParamsAux_spec (mem : PagedMemory) (pc : Nat) :
    ∀ (n i : Nat) (modes : Int) (ps : List Parameter),
      decodeParamsAux mem pc i n modes = some ps →
      ps.length = n ∧ ∀ j, j < n →
        (ps.get? j).map Parameter.mode
            = ParameterMode.fromCode
                ((((fun m => Int.tdiv m 10)^[j] modes).tmod 10).emod 256).toNat
        ∧ (ps.get? j).map Parameter.contents = some (mem.read_addr (pc + i + j)) := by
  intro n
  induction n with
  | zero =>
    intro i modes ps h
    simp only [decodeParamsAux] at h
    cases h
    exact ⟨rfl, fun j hj => absurd hj (Nat.not_lt_zero j)⟩
  | succ n ih =>
    intro i modes ps h
    simp only [decodeParamsAux] at h
    cases hm : ParameterMode.fromCode ((modes.tmod 10).emod 256).toNat with
    | none => rw [hm] at h; simp at h
    | some mode =>
      rw [hm] at h
      cases hr : decodeParamsAux mem pc (i + 1) n (modes.tdiv 10) with
      | none => rw [hr] at h; simp at h
      | some rest =>
        rw [hr] at h
        simp only [Option.some.injEq] at h
        subst h
        obtain ⟨hlen, hspec⟩ := ih (i + 1) (modes.tdiv 10) rest hr
        refine ⟨by simp [hlen], ?_⟩
        intro j hj
        cases j with
        | zero => exact ⟨by simpa using hm.symm, by simp⟩
        | succ j =>
          obtain ⟨hmode, hcont⟩ := hspec j (by omega)
          constructor
          · rw [show ((⟨mode, mem.read_addr (pc + i)⟩ : Parameter) :: rest).get? (j + 1)
                = rest.get? j from rfl]
            rw [hmode]
            simp [Function.iterate_succ_apply]
          · rw [show ((⟨mode, mem.read_addr (pc + i)⟩ : Parameter) :: rest).get? (j + 1)
                = rest.get? j from rfl]
            rw [hcont]
            rw [show pc + (i + 1) + j = pc + i + (j + 1) from by omega]

theorem Instruction.fetch_spec (s : ProgramState) (instr : Instruction)
    (h : Instruction.fetch_and_decode s = some instr) :
    OpCode.from_element (s.mem.read_addr s.program_counter) = some instr.opcode
    ∧ instr.parameters.length = instr.opcode.length - 1
    ∧ ∀ j, j < instr.parameters.length →
        (instr.parameters.get? j).map Parameter.mode
          = ParameterMode.fromCode (modeDigit (s.mem.read_addr s.program_counter) j) := by
  simp only [Instruction.fetch_and_decode] at h
  cases ho : OpCode.from_element (s.mem.read_addr s.program_counter) with
  | none => rw [ho] at h; simp at h
  | some oc =>
    rw [ho] at h
    simp only [] at h
    cases hd : decodeParamsAux s.mem s.program_counter 1 (oc.length - 1)
        ((s.mem.read_addr s.program_counter).tdiv 100) with
    | none => rw [hd] at h; simp at h
    | some ps =>
      rw [hd] at h
      simp only [Option.some.injEq] at h
      subst h
      obtain ⟨hlen, hspec⟩ := decodeParamsAux_spec s.mem s.program_counter (oc.length - 1) 1
        ((s.mem.read_addr s.program_counter).tdiv 100) ps hd
      refine ⟨rfl, hlen, ?_⟩
      intro j hj
      exact (hspec j (hlen ▸ hj)).1

theorem Instruction.fetch_none_of_badMode (s : ProgramState) (oc : OpCode)
    (hoc : OpCode.from_element (s.mem.read_addr s.program_counter) = some oc)
    (hbad : ∃ j, j < oc.length - 1
      ∧ ParameterMode.fromCode (modeDigit (s.mem.read_addr s.program_counter) j) = none) :
    Instruction.fetch_and_decode s = none := by
  obtain ⟨j, hj, hdig⟩ := hbad
  cases hfd : Instruction.fetch_and_decode s with
  | none => rfl
  | some instr =>
    exfalso
    obtain ⟨h1, h2, h3⟩ := Instruction.fetch_spec s instr hfd
    rw [hoc] at h1
    injection h1 with h1
    subst h1
    have hj' : j < instr.parameters.length := by omega
    have := h3 j hj'
    rw [hdig, List.get?_eq_get hj'] at this
    cases this

/-! ## Small-step helpers for concrete runs -/

theorem ProgramState.rtc_done_of_terminated (f : Nat) (s : ProgramState)
    (h : s.terminated = true) : ProgramState.run_to_completion f s = RunResult.done s := by
  cases f <;> simp [ProgramState.run_to_completion, h]

theorem ProgramState.rtc_step (f g : Nat) (s s' : ProgramState) (hf : f = g + 1)
    (hterm : s.terminated = false) (hp : s.progress_state = ExecResult.ok s') :
    ProgramState.run_to_completion f s = ProgramState.run_to_completion g s' := by
  subst hf
  simp only [ProgramState.run_to_completion]
  rw [if_neg (by simp [hterm]), hp]

/-! ## Cast lemma for negative addresses -/

theorem toUsize_of_neg (k : Int) (h1 : -(2 ^ 63) ≤ k) (h2 : k < 0) :
    toUsize k = (k + 2 ^ 64).toNat := by
  unfold toUsize
  have e63 : ((2 : Int) ^ 63) = 9223372036854775808 := by norm_num
  have e64 : ((2 : Int) ^ 64) = 18446744073709551616 := by norm_num
  have h3 : (0 : Int) ≤ k + 2 ^ 64 := by omega
  have h4 : k + 2 ^ 64 < 2 ^ 64 := by omega
  have h5 : (k + 2 ^ 64 * 1) % (2 ^ 64) = k % (2 ^ 64) :=
    Int.add_mul_emod_self_left k (2 ^ 64) 1
  rw [mul_one] at h5
  rw [show k.emod (2 ^ 64) = k % (2 ^ 64) from rfl, ← h5,
    Int.emod_eq_of_lt h3 h4]

/-! ## Claim theorems -/

/-- C2: for every non-negative address, `read_addr` never fails and returns zero
whenever that address was never written (including arbitrarily large addresses),
and a `write_addr` succeeds and the written value is returned by every subsequent
read of that address until the next write to it. -/
theorem c2_memory_contract :
    (∀ (ws : List (Nat × ProgramElement)) (a : Nat), a ∉ ws.map Prod.fst →
        (PagedMemory.new.writeList ws).read_addr a = 0)
    ∧ (∀ (m : PagedMemory) (a : Nat) (v : ProgramElement),
        (m.write_addr a v).read_addr a = v)
    ∧ (∀ (m : PagedMemory) (a : Nat) (v : ProgramElement)
        (ws : List (Nat × ProgramElement)), a ∉ ws.map Prod.fst →
        ((m.write_addr a v).writeList ws).read_addr a = v) := by
  refine ⟨?_, PagedMemory.read_addr_write_addr_self, ?_⟩
  · intro ws a ha
    rw [PagedMemory.read_addr_writeList_of_notMem a ws ha, PagedMemory.read_addr_new]
  · intro m a v ws ha
    rw [PagedMemory.read_addr_writeList_of_notMem a ws ha,
      PagedMemory.read_addr_write_addr_self]

/-- Witness for C2 at concrete inputs: address 10000000 was never written so it
reads zero, and address 7 reads back its last written value after later writes
to another address. -/
theorem c2_memory_contract_witness :
    ((10000000 : Nat) ∉ ([(3, 5)] : List (Nat × ProgramElement)).map Prod.fst)
    ∧ (PagedMemory.new.writeList [(3, 5)]).read_addr 10000000 = 0
    ∧ ((PagedMemory.new.write_addr 7 42).writeList [(3, 5)]).read_addr 7 = 42 :=
  ⟨by simp, c2_memory_contract.1 [(3, 5)] 10000000 (by simp),
    c2_memory_contract.2.2 PagedMemory.new 7 42 [(3, 5)] (by simp)⟩

/-- C10: resolving a Position-mode parameter with a negative operand, or a
Relative-mode parameter whose effective address `relative_base + operand` is
negative, is not a fault: the address is reinterpreted modulo `2 ^ 64`
(two's-complement cast to an unsigned machine word), and a read of such a
never-written wrapped address returns zero. -/
theorem c10_negative_address_wrap :
    (∀ (s : ProgramState) (k : Int), -(2 ^ 63) ≤ k → k < 0 →
        Parameter.read ⟨ParameterMode.Position, k⟩ s = s.mem.read_addr (k + 2 ^ 64).toNat)
    ∧ (∀ (s : ProgramState) (k : Int), -(2 ^ 63) ≤ s.relative_base + k →
        s.relative_base + k < 0 →
        Parameter.read ⟨ParameterMode.Relative, k⟩ s =
          s.mem.read_addr (s.relative_base + k + 2 ^ 64).toNat)
    ∧ (∀ (s : ProgramState) (k : Int) (v : ProgramElement), -(2 ^ 63) ≤ k → k < 0 →
        Parameter.write ⟨ParameterMode.Position, k⟩ s v =
          some { s with mem := s.mem.write_addr (k + 2 ^ 64).toNat v })
    ∧ (∀ (s : ProgramState) (k : Int) (ws : List (Nat × ProgramElement)),
        -(2 ^ 63) ≤ k → k < 0 → s.mem = PagedMemory.new.writeList ws →
        (k + 2 ^ 64).toNat ∉ ws.map Prod.fst →
        Parameter.read ⟨ParameterMode.Position, k⟩ s = 0) := by
  refine ⟨?_, ?_, ?_, ?_⟩
  · intro s k h1 h2
    rw [show Parameter.read ⟨ParameterMode.Position, k⟩ s
        = s.mem.read_addr (toUsize k) from rfl, toUsize_of_neg k h1 h2]
  · intro s k h1 h2
    rw [show Parameter.read ⟨ParameterMode.Relative, k⟩ s
        = s.mem.read_addr (toUsize (s.relative_base + k)) from rfl,
      toUsize_of_neg (s.relative_base + k) h1 h2]
  · intro s k v h1 h2
    rw [show Parameter.write ⟨ParameterMode.Position, k⟩ s v
        = some { s with mem := s.mem.write_addr (toUsize k) v } from rfl,
      toUsize_of_neg k h1 h2]
  · intro s k ws h1 h2 hmem hnot
    rw [show Parameter.read ⟨ParameterMode.Position, k⟩ s
        = s.mem.read_addr (toUsize k) from rfl, toUsize_of_neg k h1 h2, hmem,
      PagedMemory.read_addr_writeList_of_notMem _ ws hnot, PagedMemory.read_addr_new]

/-- Witness for C10 at operand -1 against an all-fresh memory: the wrapped
address 2^64 - 1 was never written, so the read returns zero. -/
theorem c10_negative_address_wrap_witness :
    (-(2 ^ 63) : Int) ≤ -1 ∧ (-1 : Int) < 0
    ∧ Parameter.read ⟨ParameterMode.Position, -1⟩ (ProgramState.new [] []) = 0 :=
  ⟨by norm_num, by norm_num,
    c10_negative_address_wrap.2.2.2 (ProgramState.new [] []) (-1) []
      (by norm_num) (by norm_num) rfl (by simp)⟩

/-- C6: resolving a Relative-mode parameter with operand k (for reading, and for
a write target) yields the same value or target address as resolving a
Position-mode parameter with operand `relative_base + k`; and executing any
instruction other than AdjustRelativeBase leaves `relative_base` unchanged. -/
theorem c6_relative_position_equiv :
    (∀ (s : ProgramState) (k : ProgramElement),
        Parameter.read ⟨ParameterMode.Relative, k⟩ s =
          Parameter.read ⟨ParameterMode.Position, s.relative_base + k⟩ s)
    ∧ (∀ (s : ProgramState) (k v : ProgramElement),
        Parameter.write ⟨ParameterMode.Relative, k⟩ s v =
          Parameter.write ⟨ParameterMode.Position, s.relative_base + k⟩ s v)
    ∧ (∀ (i : Instruction) (s s' : ProgramState), i.opcode ≠ OpCode.AdjustRelativeBase →
        i.execute s = ExecResult.ok s' → s'.relative_base = s.relative_base)
    ∧ (∀ (i : Instruction) (s s' : ProgramState),
        i.execute s = ExecResult.noInput s' → s'.relative_base = s.relative_base) := by
  refine ⟨fun s k => rfl, fun s k v => rfl, ?_, ?_⟩
  · intro i s s' hop h
    exact (Instruction.execute_ok_fields i s s' h).1 hop
  · intro i s s' h
    rw [(Instruction.execute_noInput i s s' h).1]

/-- Witness for C6: executing a concrete Add instruction leaves the relative
base unchanged. -/
theorem c6_relative_position_equiv_witness :
    ∃ s' : ProgramState,
      Instruction.execute ⟨OpCode.Add, [⟨ParameterMode.Immediate, 1⟩,
          ⟨ParameterMode.Immediate, 2⟩, ⟨ParameterMode.Position, 0⟩]⟩
          (ProgramState.new [] []) = ExecResult.ok s'
      ∧ s'.relative_base = (ProgramState.new [] []).relative_base := by
  refine ⟨_, rfl,
    c6_relative_position_equiv.2.2.1
      ⟨OpCode.Add, [⟨ParameterMode.Immediate, 1⟩, ⟨ParameterMode.Immediate, 2⟩,
        ⟨ParameterMode.Position, 0⟩]⟩ (ProgramState.new [] []) _ (by decide) rfl⟩

/-- C9: when a single step fails with the needs-input condition, the entire
program state is unchanged: memory, input queue, output queue, program counter,
relative base and the terminated flag are all identical (the failed step is
atomic). -/
theorem c9_noInput_atomic (s t : ProgramState)
    (h : s.progress_state = ExecResult.noInput t) :
    t = s ∧ t.mem = s.mem ∧ t.inputs = s.inputs ∧ t.outputs = s.outputs
    ∧ t.program_counter = s.program_counter ∧ t.relative_base = s.relative_base
    ∧ t.terminated = s.terminated := by
  have he := (ProgramState.progress_noInput_eq s t h).1
  subst he
  exact ⟨rfl, rfl, rfl, rfl, rfl, rfl, rfl⟩

/-- Witness for C9: a concrete program pausing on input returns the very same
state. -/
theorem c9_noInput_atomic_witness :
    (ProgramState.new [3, 0, 99] []).progress_state
        = ExecResult.noInput (ProgramState.new [3, 0, 99] [])
    ∧ ProgramState.new [3, 0, 99] [] = ProgramState.new [3, 0, 99] [] :=
  ⟨rfl, (c9_noInput_atomic (ProgramState.new [3, 0, 99] [])
    (ProgramState.new [3, 0, 99] []) rfl).1⟩

/-- C4: when the next instruction is ReadInput and the input queue is empty, one
step signals the recoverable needs-input condition (`noInput`, not `fatal`) and
returns the state unchanged (in particular the program counter and relative base
are unchanged), and appending input does not change which instruction is decoded,
so the same ReadInput instruction is retried at the same program counter. -/
theorem c4_awaiting_input_recoverable (s : ProgramState) (i : Instruction)
    (hfd : Instruction.fetch_and_decode s = some i)
    (hop : i.opcode = OpCode.ReadInput) (hin : s.inputs = []) :
    s.progress_state = ExecResult.noInput s
    ∧ ∀ l : List ProgramElement,
        Instruction.fetch_and_decode { s with inputs := l }
          = Instruction.fetch_and_decode s := by
  refine ⟨?_, fun l => rfl⟩
  rw [ProgramState.progress_state_of_fetch s i hfd]
  obtain ⟨op, ps⟩ := i
  simp only [] at hop
  subst hop
  simp [Instruction.execute, hin]

/-- Witness for C4: a concrete program whose first instruction is ReadInput with
an empty queue pauses with the state unchanged. -/
theorem c4_awaiting_input_recoverable_witness :
    Instruction.fetch_and_decode (ProgramState.new [3, 0, 99] [])
        = some ⟨OpCode.ReadInput, [⟨ParameterMode.Position, 0⟩]⟩
    ∧ (ProgramState.new [3, 0, 99] []).progress_state
        = ExecResult.noInput (ProgramState.new [3, 0, 99] []) :=
  ⟨rfl, (c4_awaiting_input_recoverable (ProgramState.new [3, 0, 99] [])
    ⟨OpCode.ReadInput, [⟨ParameterMode.Position, 0⟩]⟩ rfl rfl rfl).1⟩

/-- C8: the terminated flag starts false in every newly constructed program
state and is monotone under single-step execution; once true it remains true,
and a terminated state is absorbing for both run loops. -/
theorem c8_terminated_monotone :
    (∀ (mem inputs : List ProgramElement),
        (ProgramState.new mem inputs).terminated = false)
    ∧ (∀ (s s' : ProgramState), s.progress_state = ExecResult.ok s' →
        s.terminated = true → s'.terminated = true)
    ∧ (∀ (s t : ProgramState), s.progress_state = ExecResult.noInput t →
        t.terminated = s.terminated)
    ∧ (∀ (f : Nat) (s : ProgramState), s.terminated = true →
        ProgramState.run_to_completion f s = RunResult.done s
        ∧ ProgramState.run_to_next_input f s = some s) := by
  refine ⟨fun mem inputs => rfl, ?_, ?_, ?_⟩
  · intro s s' h ht
    cases hfd : Instruction.fetch_and_decode s with
    | none =>
      rw [ProgramState.progress_state_of_fetch_none s hfd] at h
      cases h
    | some i =>
      rw [ProgramState.progress_state_of_fetch s i hfd] at h
      exact (Instruction.execute_ok_fields i s s' h).2 ht
  · intro s t h
    rw [(ProgramState.progress_noInput_eq s t h).1]
  · intro f s h
    exact ⟨ProgramState.rtc_done_of_terminated f s h, ProgramState.rtni_of_terminated f s h⟩

/-- Witness for C8: stepping a concrete already-terminated state (a Terminate
instruction at the program counter) keeps the flag true. -/
theorem c8_terminated_monotone_witness :
    ∃ s' : ProgramState,
      ({ ProgramState.new [99] [] with terminated := true } : ProgramState).progress_state
          = ExecResult.ok s'
      ∧ s'.terminated = true := by
  refine ⟨_, rfl, c8_terminated_monotone.2.1
    ({ ProgramState.new [99] [] with terminated := true }) _ rfl rfl⟩

/-- C5: if run-to-next-input pauses (returns a non-terminated state, i.e. the
program reached a ReadInput with an empty queue), then run-to-completion on the
same state with the same fuel reports the fatal outcome, distinguishable from
normal completion, rather than returning normally. -/
theorem c5_run_to_completion_fatal (fuel : Nat) (s t : ProgramState)
    (h : ProgramState.run_to_next_input fuel s = some t) (ht : t.terminated = false) :
    ProgramState.run_to_completion fuel s = RunResult.fatal :=
  ProgramState.rtc_fatal_of_pause fuel s t h ht

/-- Witness for C5: a concrete program that pauses on missing input makes
run-to-completion fatal. -/
theorem c5_run_to_completion_fatal_witness :
    ProgramState.run_to_next_input 2 (ProgramState.new [3, 0, 99] [])
        = some (ProgramState.new [3, 0, 99] [])
    ∧ (ProgramState.new [3, 0, 99] []).terminated = false
    ∧ ProgramState.run_to_completion 2 (ProgramState.new [3, 0, 99] [])
        = RunResult.fatal :=
  ⟨rfl, rfl, c5_run_to_completion_fatal 2 (ProgramState.new [3, 0, 99] [])
    (ProgramState.new [3, 0, 99] []) rfl rfl⟩

/-- C3: for the instruction word w at the program counter, the decoder selects
the opcode from w modulo 100 (truncated remainder, as in the source language,
so the selection depends on w only through that remainder), assigns parameter j
the mode given by the j-th least-significant decimal digit of w after removing
the two opcode digits (0 ↦ Position, 1 ↦ Immediate, 2 ↦ Relative), and decoding
is a fatal fault when the opcode value is outside the defined set or a mode
digit is outside 0, 1, 2. -/
theorem c3_decoder (s : ProgramState) :
    (∀ instr : Instruction, Instruction.fetch_and_decode s = some instr →
        OpCode.from_element (s.mem.read_addr s.program_counter) = some instr.opcode
        ∧ instr.parameters.length = instr.opcode.length - 1
        ∧ ∀ j, j < instr.parameters.length →
            (instr.parameters.get? j).map Parameter.mode
              = ParameterMode.fromCode (modeDigit (s.mem.read_addr s.program_counter) j))
    ∧ (∀ w w' : ProgramElement, w.tmod 100 = w'.tmod 100 →
        OpCode.from_element w = OpCode.from_element w')
    ∧ (ParameterMode.fromCode 0 = some ParameterMode.Position
        ∧ ParameterMode.fromCode 1 = some ParameterMode.Immediate
        ∧ ParameterMode.fromCode 2 = some ParameterMode.Relative
        ∧ ∀ d : Nat, d ≠ 0 → d ≠ 1 → d ≠ 2 → ParameterMode.fromCode d = none)
    ∧ (OpCode.from_element (s.mem.read_addr s.program_counter) = none →
        Instruction.fetch_and_decode s = none ∧ s.progress_state = ExecResult.fatal)
    ∧ (∀ oc : OpCode, OpCode.from_element (s.mem.read_addr s.program_counter) = some oc →
        (∃ j, j < oc.length - 1
          ∧ ParameterMode.fromCode (modeDigit (s.mem.read_addr s.program_counter) j) = none) →
        Instruction.fetch_and_decode s = none ∧ s.progress_state = ExecResult.fatal) := by
  refine ⟨fun instr h => Instruction.fetch_spec s instr h, ?_, ?_, ?_, ?_⟩
  · intro w w' hw
    simp only [OpCode.from_element]
    rw [hw]
  · refine ⟨rfl, rfl, rfl, ?_⟩
    intro d h0 h1 h2
    rcases d with _ | (_ | (_ | d))
    · exact absurd rfl h0
    · exact absurd rfl h1
    · exact absurd rfl h2
    · rfl
  · intro ho
    have hf : Instruction.fetch_and_decode s = none := by
      simp only [Instruction.fetch_and_decode]
      rw [ho]
    exact ⟨hf, ProgramState.progress_state_of_fetch_none s hf⟩
  · intro oc hoc hbad
    have hf := Instruction.fetch_none_of_badMode s oc hoc hbad
    exact ⟨hf, ProgramState.progress_state_of_fetch_none s hf⟩

/-- Witness for C3: decoding the instruction word 21101 yields Add with
parameter modes Immediate, Immediate, Relative. -/
theorem c3_decoder_witness :
    Instruction.fetch_and_decode (ProgramState.new [21101, 2, 3, 5] [])
        = some ⟨OpCode.Add, [⟨ParameterMode.Immediate, 2⟩, ⟨ParameterMode.Immediate, 3⟩,
            ⟨ParameterMode.Relative, 5⟩]⟩
    ∧ OpCode.from_element ((ProgramState.new [21101, 2, 3, 5] []).mem.read_addr
          (ProgramState.new [21101, 2, 3, 5] []).program_counter)
        = some OpCode.Add := by
  refine ⟨rfl, ?_⟩
  exact ((c3_decoder (ProgramState.new [21101, 2, 3, 5] [])).1
    ⟨OpCode.Add, [⟨ParameterMode.Immediate, 2⟩, ⟨ParameterMode.Immediate, 3⟩,
      ⟨ParameterMode.Relative, 5⟩]⟩ rfl).1

/-- C1: splitting the inputs across several run-to-next-input calls (pushing
each portion onto the input queue before the corresponding call) produces,
when the program terminates, exactly the same final output queue (indeed the
same final state) as one run-to-completion call on the same image with the
whole input sequence pre-loaded. -/
theorem c1_split_inputs_equiv (mem : List ProgramElement)
    (portions : List (List ProgramElement)) (fuel : Nat) (sB : ProgramState)
    (h : runSplit portions fuel (ProgramState.new mem []) = some sB)
    (ht : sB.terminated = true) :
    ∃ (F : Nat) (sA : ProgramState),
      ProgramState.run_to_completion F (ProgramState.new mem portions.flatten)
          = RunResult.done sA
      ∧ sA.outputs = sB.outputs := by
  obtain ⟨F, hF⟩ := ProgramState.runSplit_rtni portions fuel (ProgramState.new mem []) sB h ht
  rw [show (ProgramState.new mem []).addInputs portions.flatten
      = ProgramState.new mem portions.flatten from by
    simp [ProgramState.addInputs, ProgramState.new]] at hF
  exact ⟨F, sB, ProgramState.rtc_of_rtni_terminated F _ sB hF ht, rfl⟩

/-- Witness for C1: one portion of one input fed through run-to-next-input
reaches termination, and run-to-completion with the input pre-loaded produces
the same output queue. -/
theorem c1_split_inputs_equiv_witness :
    ∃ sB : ProgramState,
      runSplit [[7]] 3 (ProgramState.new [3, 3, 99] []) = some sB
      ∧ sB.terminated = true
      ∧ ∃ (F : Nat) (sA : ProgramState),
          ProgramState.run_to_completion F (ProgramState.new [3, 3, 99] [[7]].flatten)
              = RunResult.done sA
          ∧ sA.outputs = sB.outputs := by
  refine ⟨_, rfl, rfl, c1_split_inputs_equiv [3, 3, 99] [[7]] 3 _ rfl rfl⟩

/-! ## The reference branch program of C7 -/

def mem7 : PagedMemory :=
  PagedMemory.fromList [3, 12, 6, 12, 15, 1, 13, 14, 13, 4, 13, 99, -1, 0, 1, 9]

/-- State after the ReadInput at pc 0 consumed the single input `x`. -/
def st7a (x : ProgramElement) : ProgramState := ⟨mem7.write_addr 12 x, [], [], 2, 0, false⟩

/-- State after the JumpIfFalse at pc 2 jumped (input was zero). -/
def st7j (x : ProgramElement) : ProgramState := ⟨mem7.write_addr 12 x, [], [], 9, 0, false⟩

/-- State after the JumpIfFalse at pc 2 fell through (input was nonzero). -/
def st7b (x : ProgramElement) : ProgramState := ⟨mem7.write_addr 12 x, [], [], 5, 0, false⟩

/-- State after the Add at pc 5 stored 1 at address 13. -/
def st7c (x : ProgramElement) : ProgramState :=
  ⟨(mem7.write_addr 12 x).write_addr 13 1, [], [], 9, 0, false⟩

/-- State after the WriteOutput at pc 9 emitted the cell at address 13. -/
def st7d (x : ProgramElement) : ProgramState :=
  ⟨(mem7.write_addr 12 x).write_addr 13 1, [], [1], 11, 0, false⟩

/-- State after the Terminate at pc 11. -/
def st7e (x : ProgramElement) : ProgramState :=
  ⟨(mem7.write_addr 12 x).write_addr 13 1, [], [1], 12, 0, true⟩

/-- C7: running `[3,12,6,12,15,1,13,14,13,4,13,99,-1,0,1,9]` to completion with
the single input 0 produces the single output 0, and with any single nonzero
input produces the single output 1. -/
theorem c7_branch_program :
    (∃ s : ProgramState,
        ProgramState.run_to_completion 16
            (ProgramState.new [3, 12, 6, 12, 15, 1, 13, 14, 13, 4, 13, 99, -1, 0, 1, 9] [0])
          = RunResult.done s ∧ s.outputs = [0])
    ∧ ∀ x : ProgramElement, x ≠ 0 →
        ∃ s : ProgramState,
          ProgramState.run_to_completion 16
              (ProgramState.new [3, 12, 6, 12, 15, 1, 13, 14, 13, 4, 13, 99, -1, 0, 1, 9] [x])
            = RunResult.done s ∧ s.outputs = [1] := by
  constructor
  · exact ⟨_, rfl, rfl⟩
  · intro x hx
    have h1 : (ProgramState.new [3, 12, 6, 12, 15, 1, 13, 14, 13, 4, 13, 99, -1, 0, 1, 9]
        [x]).progress_state = ExecResult.ok (st7a x) := by
      with_unfolding_all rfl
    have h2 : (st7a x).progress_state
        = if x = 0 then ExecResult.ok (st7j x) else ExecResult.ok (st7b x) := by
      with_unfolding_all rfl
    rw [if_neg hx] at h2
    have h3 : (st7b x).progress_state = ExecResult.ok (st7c x) := by with_unfolding_all rfl
    have h4 : (st7c x).progress_state = ExecResult.ok (st7d x) := by with_unfolding_all rfl
    have h5 : (st7d x).progress_state = ExecResult.ok (st7e x) := by with_unfolding_all rfl
    refine ⟨st7e x, ?_, rfl⟩
    rw [ProgramState.rtc_step 16 15 _ _ rfl rfl h1,
      ProgramState.rtc_step 15 14 _ _ rfl rfl h2,
      ProgramState.rtc_step 14 13 _ _ rfl rfl h3,
      ProgramState.rtc_step 13 12 _ _ rfl rfl h4,
      ProgramState.rtc_step 12 11 _ _ rfl rfl h5]
    exact ProgramState.rtc_done_of_terminated 11 _ rfl

/-- Witness for C7 at the concrete nonzero input 4, as in the repository's own
test. -/
theorem c7_branch_program_witness :
    (4 : ProgramElement) ≠ 0
    ∧ ∃ s : ProgramState,
        ProgramState.run_to_completion 16
            (ProgramState.new [3, 12, 6, 12, 15, 1, 13, 14, 13, 4, 13, 99, -1, 0, 1, 9] [4])
          = RunResult.done s ∧ s.outputs = [1] :=
  ⟨by decide, c7_branch_program.2 4 (by decide)⟩
